import Mathlib

/-!
Verification of the Cerebrum inference-harness core against its design
specification.

The Python sources embedded here (shallowly, as pure Lean functions) are:
* `src/benchmarks/humaneval/inference.py` — `parse_result`,
  `write_output_func`, `process_one_func`;
* `src/cerebrum/llm/apis.py` — the pydantic models `LLMQuery` and
  `LLMResponse` (construction-time validation behaviour);
* `src/cerebrum/llm/layer.py` — `LLMItem`, `LLMLayer`.

Python strings are modelled as `List Char`; Python `str.find` returning `-1`
is modelled as `Option Nat`; file writes are modelled by returning the file
name and content as data; pydantic construction is modelled as a function
from the provided (or omitted) keyword arguments to `Except ValidationError`
of the model.
-/

namespace Cerebrum

/-! ## Delimiter extraction (`parse_result`) -/

def beginMarker : List Char := "<FINAL_ANSWER>".data

def endMarker : List Char := "</FINAL_ANSWER>".data

/-- Embedding of Python `str.find`: the index of the first occurrence of
`pat` in `hay`, or `none` when `pat` does not occur (Python returns `-1`). -/
def strFind (hay pat : List Char) : Option Nat :=
  if pat.isPrefixOf hay then some 0
  else
    match hay with
    | [] => none
    | _ :: t => (strFind t pat).map (· + 1)

/-- Embedding of `parse_result` from `src/benchmarks/humaneval/inference.py`:
find the begin and end markers; when both are found, return the slice
`result[start_idx + len("<FINAL_ANSWER>") : end_idx]` (a Python slice whose
stop lies before its start is empty, matching `take` of a truncated `Nat`
subtraction); otherwise return the empty string. -/
def parse_result (result : List Char) : List Char :=
  match strFind result beginMarker, strFind result endMarker with
  | some start_idx, some end_idx =>
      (result.drop (start_idx + beginMarker.length)).take
        (end_idx - (start_idx + beginMarker.length))
  | some _, none => []
  | none, _ => []

/-- Specification-level predicate: `pat` occurs in `hay` at index `i`. -/
def occursAt (pat hay : List Char) (i : Nat) : Prop :=
  pat <+: hay.drop i

instance (pat hay : List Char) (i : Nat) : Decidable (occursAt pat hay i) :=
  inferInstanceAs (Decidable (pat <+: hay.drop i))

theorem isPrefixOf_iff (l1 l2 : List Char) : l1.isPrefixOf l2 = true ↔ l1 <+: l2 :=
  List.isPrefixOf_iff_prefix

theorem nil_isPrefix (l : List Char) : [] <+: l :=
  List.nil_prefix

theorem isPrefix_append_left (l1 l2 : List Char) : l1 <+: l1 ++ l2 :=
  List.prefix_append l1 l2

theorem occursAt_nil_iff (pat : List Char) (i : Nat) : occursAt pat [] i ↔ pat = [] := by
  simp [occursAt]

theorem occursAt_zero_iff (pat hay : List Char) : occursAt pat hay 0 ↔ pat <+: hay := by
  simp [occursAt]

theorem occursAt_succ_cons (pat : List Char) (h : Char) (t : List Char) (i : Nat) :
    occursAt pat (h :: t) (i + 1) ↔ occursAt pat t i := by
  simp [occursAt]

theorem strFind_eq_some_iff (hay pat : List Char) (i : Nat) :
    strFind hay pat = some i ↔
      occursAt pat hay i ∧ ∀ j < i, ¬ occursAt pat hay j := by
  induction hay generalizing i with
  | nil =>
      rw [strFind]
      by_cases hp : pat.isPrefixOf []
      · rw [if_pos hp]
        simp only [Option.some.injEq]
        constructor
        · rintro rfl
          exact ⟨(occursAt_zero_iff _ _).mpr ((isPrefixOf_iff _ _).mp hp),
            fun j hj => absurd hj (Nat.not_lt_zero j)⟩
        · rintro ⟨hocc, hleast⟩
          by_contra hne
          have hi : 0 < i := Nat.pos_of_ne_zero fun h => hne h.symm
          exact hleast 0 hi ((occursAt_zero_iff _ _).mpr ((isPrefixOf_iff _ _).mp hp))
      · rw [if_neg hp]
        constructor
        · intro hEq
          exact Option.noConfusion hEq
        · rintro ⟨hocc, -⟩
          obtain rfl := (occursAt_nil_iff _ _).mp hocc
          exact absurd ((isPrefixOf_iff _ _).mpr (nil_isPrefix _)) hp
  | cons h t ih =>
      rw [strFind]
      by_cases hp : pat.isPrefixOf (h :: t)
      · rw [if_pos hp]
        simp only [Option.some.injEq]
        constructor
        · rintro rfl
          exact ⟨(occursAt_zero_iff _ _).mpr ((isPrefixOf_iff _ _).mp hp),
            fun j hj => absurd hj (Nat.not_lt_zero j)⟩
        · rintro ⟨hocc, hleast⟩
          by_contra hne
          have hi : 0 < i := Nat.pos_of_ne_zero fun h => hne h.symm
          exact hleast 0 hi ((occursAt_zero_iff _ _).mpr ((isPrefixOf_iff _ _).mp hp))
      · rw [if_neg hp, Option.map_eq_some']
        constructor
        · rintro ⟨i', hi', rfl⟩
          obtain ⟨hocc, hleast⟩ := (ih i').mp hi'
          refine ⟨(occursAt_succ_cons _ _ _ _).mpr hocc, ?_⟩
          intro j hj
          match j with
          | 0 =>
              exact fun hcon =>
                hp ((isPrefixOf_iff _ _).mpr ((occursAt_zero_iff _ _).mp hcon))
          | j' + 1 =>
              exact fun hcon => hleast j' (by omega) ((occursAt_succ_cons _ _ _ _).mp hcon)
        · rintro ⟨hocc, hleast⟩
          match i with
          | 0 =>
              exact absurd ((isPrefixOf_iff _ _).mpr ((occursAt_zero_iff _ _).mp hocc)) hp
          | i' + 1 =>
              refine ⟨i', (ih i').mpr ⟨(occursAt_succ_cons _ _ _ _).mp hocc, ?_⟩, rfl⟩
              intro j hj hcon
              exact hleast (j + 1) (by omega) ((occursAt_succ_cons _ _ _ _).mpr hcon)

theorem strFind_eq_none_iff (hay pat : List Char) :
    strFind hay pat = none ↔ ∀ i, ¬ occursAt pat hay i := by
  induction hay with
  | nil =>
      rw [strFind]
      by_cases hp : pat.isPrefixOf []
      · rw [if_pos hp]
        constructor
        · intro hEq
          exact Option.noConfusion hEq
        · intro hall
          exact absurd ((occursAt_zero_iff _ _).mpr ((isPrefixOf_iff _ _).mp hp))
            (hall 0)
      · rw [if_neg hp]
        constructor
        · intro _ i hcon
          obtain rfl := (occursAt_nil_iff _ _).mp hcon
          exact hp ((isPrefixOf_iff _ _).mpr (nil_isPrefix _))
        · intro _
          rfl
  | cons h t ih =>
      rw [strFind]
      by_cases hp : pat.isPrefixOf (h :: t)
      · rw [if_pos hp]
        constructor
        · intro hEq
          exact Option.noConfusion hEq
        · intro hall
          exact absurd ((occursAt_zero_iff _ _).mpr ((isPrefixOf_iff _ _).mp hp))
            (hall 0)
      · rw [if_neg hp, Option.map_eq_none']
        constructor
        · intro hnone i
          match i with
          | 0 =>
              exact fun hcon =>
                hp ((isPrefixOf_iff _ _).mpr ((occursAt_zero_iff _ _).mp hcon))
          | i' + 1 =>
              exact fun hcon => ih.mp hnone i' ((occursAt_succ_cons _ _ _ _).mp hcon)
        · intro hall
          exact ih.mpr fun i hcon => hall (i + 1) ((occursAt_succ_cons _ _ _ _).mpr hcon)

/-- C1: `parse_result` returns the substring strictly between the first
occurrence of `<FINAL_ANSWER>` and the first occurrence of `</FINAL_ANSWER>`
when both markers are present (the slice starting right after the begin
marker and stopping at the end marker's first index, empty when that span is
degenerate), and returns the empty string when either marker is absent; in
particular `<FINAL_ANSWER>X</FINAL_ANSWER>` yields exactly `X`, text with no
markers yields the empty string, and text with only the start marker yields
the empty string. -/
theorem C1_parse_result_between_first_occurrences :
    (∀ result s e,
        (occursAt beginMarker result s ∧ ∀ j < s, ¬ occursAt beginMarker result j) →
        (occursAt endMarker result e ∧ ∀ j < e, ¬ occursAt endMarker result j) →
        parse_result result =
          (result.drop (s + beginMarker.length)).take (e - (s + beginMarker.length)))
    ∧ (∀ result,
        ((∀ i, ¬ occursAt beginMarker result i) ∨ (∀ i, ¬ occursAt endMarker result i)) →
        parse_result result = [])
    ∧ parse_result "<FINAL_ANSWER>X</FINAL_ANSWER>".data = "X".data
    ∧ parse_result "no markers here".data = []
    ∧ parse_result "<FINAL_ANSWER>X".data = [] := by
  refine ⟨?_, ?_, by decide, by decide, by decide⟩
  · intro result s e hs he
    have hs' : strFind result beginMarker = some s := (strFind_eq_some_iff _ _ _).mpr hs
    have he' : strFind result endMarker = some e := (strFind_eq_some_iff _ _ _).mpr he
    rw [parse_result, hs', he']
  · intro result habs
    rcases habs with habs | habs
    · have hn : strFind result beginMarker = none := (strFind_eq_none_iff _ _).mpr habs
      rw [parse_result, hn]
    · have hn : strFind result endMarker = none := (strFind_eq_none_iff _ _).mpr habs
      rw [parse_result, hn]
      cases strFind result beginMarker <;> rfl

/-- Witness for C1: at the concrete input `<FINAL_ANSWER>X</FINAL_ANSWER>`,
the first occurrence of the begin marker is at index 0 and of the end marker
at index 15, and the extracted slice is exactly `X`. -/
theorem C1_parse_result_between_first_occurrences_witness :
    parse_result "<FINAL_ANSWER>X</FINAL_ANSWER>".data =
      (("<FINAL_ANSWER>X</FINAL_ANSWER>".data.drop (0 + beginMarker.length)).take
        (15 - (0 + beginMarker.length))) :=
  C1_parse_result_between_first_occurrences.1 "<FINAL_ANSWER>X</FINAL_ANSWER>".data 0 15
    (by decide) (by decide)

/-! ## The pydantic request/response models (`src/cerebrum/llm/apis.py`)

Pydantic construction is modelled as a function from the keyword arguments as
passed (`none` = argument omitted) to `Except ValidationError` of the model.
The declared validations on `LLMQuery` are: `messages` is a required field
(no default), and `action_type` is a `Literal["chat", "tool_use",
"operate_file"]`; every other field has a declared default (`llms = None`,
`tools = []` via `default_factory=list`, `action_type = "chat"`,
`message_return_type = "text"`, `query_class = "llm"`).  No minimum length is
declared on `messages`.  `LLMResponse` declares a default for every field and
no validator, so its construction never fails. -/

/-- A JSON-like dictionary: `Dict[str, Any]` payloads (message records, tool
descriptors, LLM configuration records) pass through the models unvalidated,
so only their identity matters; values are kept as opaque strings. -/
abbrev JsonDict := List (String × String)

/-- A pydantic validation failure raised at model-construction time. -/
inductive ValidationError where
  | missingField (field : String)
  | literalMismatch (field : String)
  deriving DecidableEq, Repr

structure LLMQuery where
  query_class : String
  llms : Option (List JsonDict)
  messages : List JsonDict
  tools : Option (List JsonDict)
  action_type : String
  message_return_type : String
  deriving DecidableEq, Repr

/-- Embedding of pydantic construction of `LLMQuery` (apis.py lines
110-115): reject a missing `messages`; reject a provided `action_type`
outside the `Literal` enumeration; fill omitted fields with their declared
defaults.  No other validation is declared on the model. -/
def mkLLMQuery (query_class : Option String) (llms : Option (Option (List JsonDict)))
    (messages : Option (List JsonDict)) (tools : Option (Option (List JsonDict)))
    (action_type : Option String) (message_return_type : Option String) :
    Except ValidationError LLMQuery :=
  match messages with
  | none => .error (.missingField "messages")
  | some msgs =>
      if action_type.getD "chat" = "chat" ∨ action_type.getD "chat" = "tool_use" ∨
          action_type.getD "chat" = "operate_file" then
        .ok { query_class := query_class.getD "llm"
              llms := llms.getD none
              messages := msgs
              tools := tools.getD (some [])
              action_type := action_type.getD "chat"
              message_return_type := message_return_type.getD "text" }
      else
        .error (.literalMismatch "action_type")

structure LLMResponse where
  response_class : String
  response_message : Option String
  tool_calls : Option (List JsonDict)
  finished : Bool
  error : Option String
  status_code : Int
  deriving DecidableEq, Repr

/-- Embedding of pydantic construction of `LLMResponse` (apis.py lines
165-173): every field has a declared default and no validator is declared,
so construction always succeeds, filling omitted fields with the defaults
(`finished = False`, `status_code = 200`, the optional fields `None`). -/
def mkLLMResponse (response_class : Option String)
    (response_message : Option (Option String))
    (tool_calls : Option (Option (List JsonDict)))
    (finished : Option Bool) (error : Option (Option String))
    (status_code : Option Int) : LLMResponse :=
  { response_class := response_class.getD "llm"
    response_message := response_message.getD none
    tool_calls := tool_calls.getD none
    finished := finished.getD false
    error := error.getD none
    status_code := status_code.getD 200 }

/-- C4: every successfully constructed `LLMQuery` has `action_type` among
the three enumerated kinds `chat`, `tool_use`, `operate_file`, and
constructing with any string outside that set fails with a
`ValidationError`. -/
theorem C4_action_type_enumerated :
    (∀ qc llms messages tools at0 mrt q,
        mkLLMQuery qc llms messages tools at0 mrt = .ok q →
        q.action_type = "chat" ∨ q.action_type = "tool_use" ∨
          q.action_type = "operate_file")
    ∧ (∀ qc llms messages tools s mrt,
        ¬(s = "chat" ∨ s = "tool_use" ∨ s = "operate_file") →
        ∃ ve, mkLLMQuery qc llms messages tools (some s) mrt = .error ve) := by
  constructor
  · intro qc llms messages tools at0 mrt q hok
    unfold mkLLMQuery at hok
    split at hok
    · exact Except.noConfusion hok
    · split at hok
      · rename_i hval
        obtain rfl := Except.ok.inj hok
        exact hval
      · exact Except.noConfusion hok
  · intro qc llms messages tools s mrt hbad
    unfold mkLLMQuery
    match messages with
    | none => exact ⟨.missingField "messages", rfl⟩
    | some msgs =>
        refine ⟨.literalMismatch "action_type", ?_⟩
        simp only [Option.getD_some]
        rw [if_neg hbad]

/-- Witness for C4 at concrete inputs: a query built with
`action_type = "chat"` lands in the enumerated set, and building with
`action_type = "draw"` fails. -/
theorem C4_action_type_enumerated_witness :
    (({ query_class := "llm", llms := none, messages := [], tools := some [],
          action_type := "chat", message_return_type := "text" } : LLMQuery).action_type = "chat"
      ∨ ({ query_class := "llm", llms := none, messages := [], tools := some [],
            action_type := "chat", message_return_type := "text" } : LLMQuery).action_type = "tool_use"
      ∨ ({ query_class := "llm", llms := none, messages := [], tools := some [],
            action_type := "chat", message_return_type := "text" } : LLMQuery).action_type = "operate_file")
    ∧ (∃ ve, mkLLMQuery none none (some []) none (some "draw") none = .error ve) :=
  ⟨C4_action_type_enumerated.1 none none (some []) none (some "chat") none _ rfl,
   C4_action_type_enumerated.2 none none (some []) none "draw" none (by decide)⟩

/-- C2 counterexample: constructing an `LLMQuery` with `messages = []` (and
every other argument omitted) does not raise; it succeeds, and the resulting
query has an empty messages list, because the pydantic model declares no
minimum length on `messages`. -/
theorem C2_empty_messages_accepted :
    mkLLMQuery none none (some []) none none none =
      .ok { query_class := "llm", llms := none, messages := [], tools := some [],
            action_type := "chat", message_return_type := "text" } := by
  rfl

/-- C2 (amended): omitting `messages` entirely fails with a
`ValidationError` (the field is required), but an empty messages list is
accepted: construction succeeds and stores `messages = []`, so a
successfully constructed query need not have a non-empty messages list. -/
theorem C2_messages_required_but_may_be_empty :
    (∀ qc llms tools at0 mrt,
        mkLLMQuery qc llms none tools at0 mrt = .error (.missingField "messages"))
    ∧ (∀ qc llms msgs tools mrt, ∃ q,
        mkLLMQuery qc llms (some msgs) tools none mrt = .ok q ∧ q.messages = msgs) := by
  constructor
  · intro qc llms tools at0 mrt
    rfl
  · intro qc llms msgs tools mrt
    exact ⟨_, rfl, rfl⟩

/-- C3 counterexample: the default-constructed `LLMResponse` has
`finished = false` and yet `error = None`, so a constructible response with
`finished = false` need not carry a non-empty error. -/
theorem C3_default_violates_invariant :
    ¬((mkLLMResponse none none none none none none).finished = false →
      (mkLLMResponse none none none none none none).error ≠ none) := by
  intro h
  exact h rfl rfl

/-- C3 (amended): `LLMResponse` enforces no relation between `finished` and
`error`: construction always succeeds and stores exactly the given-or-default
values of the two fields, and in particular the default construction yields
`finished = false` with `error = None`. -/
theorem C3_no_finished_error_invariant :
    (∀ rc rm tc f e sc,
        (mkLLMResponse rc rm tc f e sc).finished = f.getD false ∧
        (mkLLMResponse rc rm tc f e sc).error = e.getD none)
    ∧ (mkLLMResponse none none none none none none).finished = false
    ∧ (mkLLMResponse none none none none none none).error = none :=
  ⟨fun _ _ _ _ _ _ => ⟨rfl, rfl⟩, rfl, rfl⟩

/-- C9: an `LLMResponse` is always constructible with no arguments, and the
defaults are `finished = false`, `status_code = 200`, with
`response_message`, `tool_calls` and `error` absent (`None`). -/
theorem C9_default_construction :
    mkLLMResponse none none none none none none =
      { response_class := "llm", response_message := none, tool_calls := none,
        finished := false, error := none, status_code := 200 } := by
  rfl

/-! ## `LLMLayer` (`src/cerebrum/llm/layer.py`) -/

structure LLMItem where
  llm_name : String
  max_gpu_memory : Option JsonDict
  eval_device : String
  max_new_tokens : Int
  log_mode : String
  llm_backend : String
  deriving DecidableEq, Repr

structure LLMLayer where
  llms : List LLMItem
  deriving DecidableEq, Repr

/-- Embedding of the `LLMLayer` dataclass construction: `__post_init__`
raises `ValueError("LLMLayer must contain at least one LLM")` when `llms` is
empty (Python `not self.llms`), otherwise the instance stores the given
list unchanged. -/
def mkLLMLayer (llms : List LLMItem) : Except String LLMLayer :=
  if llms.isEmpty then .error "LLMLayer must contain at least one LLM"
  else .ok { llms := llms }

/-- C10: constructing an `LLMLayer` from the empty list raises a
`ValueError`; from any non-empty list it succeeds and stores the list
unchanged; hence every constructed `LLMLayer` contains at least one LLM. -/
theorem C10_llmlayer_nonempty :
    (mkLLMLayer [] = .error "LLMLayer must contain at least one LLM")
    ∧ (∀ items, items ≠ [] → mkLLMLayer items = .ok { llms := items })
    ∧ (∀ items layer, mkLLMLayer items = .ok layer → layer.llms ≠ []) := by
  refine ⟨rfl, ?_, ?_⟩
  · intro items hne
    unfold mkLLMLayer
    rw [if_neg (by simpa [List.isEmpty_iff] using hne)]
  · intro items layer hok hnil
    unfold mkLLMLayer at hok
    split at hok
    · exact Except.noConfusion hok
    · rename_i hne
      obtain rfl := Except.ok.inj hok
      exact hne (by simpa [List.isEmpty_iff] using hnil)

/-- Witness for C10 at a concrete input: a singleton layer is constructed
successfully, stores its one item, and is non-empty. -/
theorem C10_llmlayer_nonempty_witness :
    (mkLLMLayer [{ llm_name := "gpt-4", max_gpu_memory := none,
                   eval_device := "cuda:0", max_new_tokens := 2048, log_mode := "console",
                   llm_backend := "default" }] =
      .ok { llms := [{ llm_name := "gpt-4", max_gpu_memory := none,
                       eval_device := "cuda:0", max_new_tokens := 2048, log_mode := "console",
                       llm_backend := "default" }] })
    ∧ ({ llms := [{ llm_name := "gpt-4", max_gpu_memory := none,
                    eval_device := "cuda:0", max_new_tokens := 2048, log_mode := "console",
                    llm_backend := "default" }] } : LLMLayer).llms ≠ [] :=
  ⟨C10_llmlayer_nonempty.2.1 _ (by simp),
   C10_llmlayer_nonempty.2.2 [{ llm_name := "gpt-4", max_gpu_memory := none,
                                eval_device := "cuda:0", max_new_tokens := 2048,
                                log_mode := "console", llm_backend := "default" }] _
     (C10_llmlayer_nonempty.2.1 _ (by simp))⟩

/-! ## The agent invocation adapter (`process_one_func`) -/

/-- Embedding of Python `str.split(sep)` for a one-character separator:
splits at every occurrence of `c`, keeping empty pieces (the result always
has `count + 1` pieces, so it is never empty). -/
def splitOnChar (c : Char) : List Char → List (List Char)
  | [] => [[]]
  | x :: xs =>
      if x = c then [] :: splitOnChar c xs
      else
        match splitOnChar c xs with
        | [] => [[x]]
        | h :: t => (x :: h) :: t

theorem splitOnChar_ne_nil (c : Char) (l : List Char) : splitOnChar c l ≠ [] := by
  cases l with
  | nil => simp [splitOnChar]
  | cons x xs =>
      rw [splitOnChar]
      by_cases hx : x = c
      · simp [hx]
      · rw [if_neg hx]
        match splitOnChar c xs with
        | [] => simp
        | h :: t => simp

theorem splitOnChar_length (c : Char) (l : List Char) :
    (splitOnChar c l).length = l.count c + 1 := by
  induction l with
  | nil => rfl
  | cons x xs ih =>
      rw [splitOnChar]
      by_cases hx : x = c
      · subst hx
        simp [ih, List.count_cons]
      · rw [if_neg hx]
        match hS : splitOnChar c xs with
        | [] => exact absurd hS (splitOnChar_ne_nil c xs)
        | h :: t =>
            have hlen := ih
            rw [hS] at hlen
            simpa [List.count_cons, hx] using hlen

theorem getLastD_of_ne_nil {α : Type} (t : List α) (d d' : α) (h : t ≠ []) :
    t.getLastD d = t.getLastD d' := by
  cases t with
  | nil => exact absurd rfl h
  | cons a t => rfl

theorem takeWhile_append_stop (p : Char → Bool) (A : List Char) (b : Char)
    (hb : p b = false) : (A ++ [b]).takeWhile p = A.takeWhile p := by
  induction A with
  | nil => simp [List.takeWhile, hb]
  | cons a A ih =>
      simp only [List.cons_append, List.takeWhile]
      cases p a <;> simp [ih]

theorem takeWhile_append_of_mem_neg (p : Char → Bool) (A B : List Char)
    (h : ∃ a ∈ A, p a = false) : (A ++ B).takeWhile p = A.takeWhile p := by
  induction A with
  | nil =>
      obtain ⟨a, ha, -⟩ := h
      exact absurd ha (List.not_mem_nil a)
  | cons a A ih =>
      simp only [List.cons_append, List.takeWhile]
      match hpa : p a with
      | false => rfl
      | true =>
          obtain ⟨a', ha', hpa'⟩ := h
          rcases List.mem_cons.mp ha' with rfl | ha'
          · rw [hpa] at hpa'
            exact absurd hpa' (by simp)
          · simp [ih ⟨a', ha', hpa'⟩]

/-- Specification-side rendering of "the suffix of the string after the last
occurrence of `c`" (the whole string when `c` is absent): reverse, take up
to the first `c`, reverse back. -/
def suffixAfterLast (c : Char) (l : List Char) : List Char :=
  (l.reverse.takeWhile (fun x => x != c)).reverse

theorem suffixAfterLast_of_not_mem (c : Char) (l : List Char) (h : c ∉ l) :
    suffixAfterLast c l = l := by
  unfold suffixAfterLast
  rw [List.takeWhile_eq_self_iff.mpr, List.reverse_reverse]
  intro x hx
  simp only [bne_iff_ne, ne_eq]
  rintro rfl
  exact h (List.mem_reverse.mp hx)

/-- Python `s.split(sep)[-1]` computes exactly the suffix of `s` after the
last occurrence of `sep`. -/
theorem getLastD_splitOnChar (c : Char) (l : List Char) :
    (splitOnChar c l).getLastD [] = suffixAfterLast c l := by
  induction l with
  | nil => rfl
  | cons x xs ih =>
      rw [splitOnChar]
      by_cases hx : x = c
      · subst hx
        rw [if_pos rfl, List.getLastD_cons]
        have hS := splitOnChar_ne_nil x xs
        rw [getLastD_of_ne_nil _ _ ([] : List Char) hS, ih]
        unfold suffixAfterLast
        rw [List.reverse_cons, takeWhile_append_stop _ _ _ (by simp)]
      · rw [if_neg hx]
        match hS : splitOnChar c xs with
        | [] => exact absurd hS (splitOnChar_ne_nil c xs)
        | h :: t =>
            rw [hS] at ih
            match t with
            | [] =>
                have hcount : xs.count c = 0 := by
                  have := splitOnChar_length c xs
                  rw [hS] at this
                  simpa using this
                have hnotmem : c ∉ xs := by
                  simpa [List.count_eq_zero] using hcount
                have hxs : h = xs := by
                  rw [suffixAfterLast_of_not_mem c xs hnotmem] at ih
                  simpa using ih
                subst hxs
                have hnotmem' : c ∉ x :: h := by
                  intro hmem
                  rcases List.mem_cons.mp hmem with hEq | hmem
                  · exact hx hEq.symm
                  · exact hnotmem hmem
                rw [suffixAfterLast_of_not_mem c (x :: h) hnotmem']
                rfl
            | t0 :: ts =>
                have hmem : c ∈ xs := by
                  have := splitOnChar_length c xs
                  rw [hS] at this
                  have : 0 < xs.count c := by
                    simp only [List.length_cons] at this
                    omega
                  exact List.count_pos_iff.mp this
                have lhs_eq : (((x :: h) :: t0 :: ts).getLastD []) =
                    ((h :: t0 :: ts).getLastD []) := by
                  show (t0 :: ts).getLastD (x :: h) = (t0 :: ts).getLastD h
                  exact getLastD_of_ne_nil (t0 :: ts) (x :: h) h (by simp)
                rw [lhs_eq, ih]
                unfold suffixAfterLast
                rw [List.reverse_cons,
                  takeWhile_append_of_mem_neg _ _ [x]
                    ⟨c, List.mem_reverse.mpr hmem, by simp⟩]

structure BenchmarkRecord where
  prompt : String
  test : String
  entry_point : String
  task_id : String
  deriving DecidableEq, Repr

structure Prediction where
  task_id : String
  completion : String
  deriving DecidableEq, Repr

structure SideFile where
  name : String
  content : String
  deriving DecidableEq, Repr

/-- Embedding of `process_one_func` from
`src/benchmarks/humaneval/inference.py` (lines 49-75).  The agent call
`AGENT_TYPE_MAPPING_AIOS[meta_data.agent_type](...).run_humaneval(...)` is
an external collaborator; the text it returns enters as `rawResult`.  The
file-system write of the verification program is modelled by returning the
side file's name and content as data alongside the returned prediction. -/
def process_one_func (data : BenchmarkRecord) (rawResult : String) :
    SideFile × Prediction :=
  let result : String := ⟨parse_result rawResult.data⟩
  let check_program : String :=
    data.prompt ++ result ++ "\n" ++ data.test ++ "\n" ++ "check(" ++ data.entry_point ++ ")"
  let task_id : String := ⟨(splitOnChar '/' data.task_id.data).getLastD []⟩
  ({ name := "program" ++ task_id ++ ".py", content := check_program },
   { task_id := data.task_id, completion := result })

/-- C5: for every benchmark record and raw agent reply, the side file is
named `program<suffix>.py` where `<suffix>` is the suffix of the task
identifier after its last `/`; the side-file content is exactly
prompt ++ extracted answer ++ newline ++ test ++ newline ++
`check(<entry_point>)`; and the returned prediction carries the full,
untruncated `task_id` together with the extracted completion. -/
theorem C5_process_one_func_artifact :
    ∀ (data : BenchmarkRecord) (rawResult : String),
      (process_one_func data rawResult).1.name =
        "program" ++ (⟨suffixAfterLast '/' data.task_id.data⟩ : String) ++ ".py"
      ∧ (process_one_func data rawResult).1.content =
        data.prompt ++ (⟨parse_result rawResult.data⟩ : String) ++ "\n" ++ data.test
          ++ "\n" ++ "check(" ++ data.entry_point ++ ")"
      ∧ (process_one_func data rawResult).2 =
        { task_id := data.task_id, completion := ⟨parse_result rawResult.data⟩ } := by
  intro data rawResult
  refine ⟨?_, rfl, rfl⟩
  unfold process_one_func
  rw [getLastD_splitOnChar]

/-! ## The result writer (`write_output_func`)

`write_output_func` serializes each prediction with Python `json.dumps` and
writes one line per record.  `json.dumps` is embedded with its default
settings: ASCII-only output (`ensure_ascii=True`), item separator `", "`,
key separator `": "`, keys in insertion order (`task_id` then
`completion`).  A code point is emitted literally iff it is printable ASCII
other than `"` and `\`; the two-character short escapes cover `"`, `\`,
newline, carriage return, tab, backspace and form feed; every other code
point becomes `\uXXXX` (a surrogate pair for code points beyond the basic
multilingual plane). -/

def hexDigitChar (n : Nat) : Char :=
  if n < 10 then Char.ofNat (48 + n) else Char.ofNat (87 + n)

def hex4 (n : Nat) : List Char :=
  [hexDigitChar (n / 4096 % 16), hexDigitChar (n / 256 % 16),
   hexDigitChar (n / 16 % 16), hexDigitChar (n % 16)]

def jsonEscapeChar (c : Char) : List Char :=
  if c = '"' then ['\\', '"']
  else if c = '\\' then ['\\', '\\']
  else if c = '\n' then ['\\', 'n']
  else if c = '\r' then ['\\', 'r']
  else if c = '\t' then ['\\', 't']
  else if c.toNat = 8 then ['\\', 'b']
  else if c.toNat = 12 then ['\\', 'f']
  else if 0x20 ≤ c.toNat ∧ c.toNat ≤ 0x7e then [c]
  else if c.toNat < 0x10000 then '\\' :: 'u' :: hex4 c.toNat
  else
    ('\\' :: 'u' :: hex4 (0xd800 + (c.toNat - 0x10000) / 0x400)) ++
      ('\\' :: 'u' :: hex4 (0xdc00 + (c.toNat - 0x10000) % 0x400))

def jsonEscape : List Char → List Char
  | [] => []
  | c :: s => jsonEscapeChar c ++ jsonEscape s

/-- Embedding of `json.dumps(prediction)` for the two-field dictionary built
by `process_one_func`. -/
def json_dumps (p : Prediction) : List Char :=
  "\x7b\"task_id\": \"".data ++ jsonEscape p.task_id.data
    ++ "\", \"completion\": \"".data ++ jsonEscape p.completion.data
    ++ "\"\x7d".data

/-- Python `open(output_file, "w")` truncates whatever the file held. -/
def openModeW (_oldContent : List Char) : List Char := []

/-- Embedding of `write_output_func` (inference.py lines 41-46): open the
output path with mode `"w"` (truncating it), then append
`json.dumps(result) + "\n"` for each result in list order.  The file system
is modelled by the file's content before and after the call. -/
def write_output_func (result_list : List Prediction) (oldContent : List Char) :
    List Char :=
  result_list.foldl (fun acc r => acc ++ json_dumps r ++ ['\n']) (openModeW oldContent)

/-! ### A JSON line decoder

Specification-side decoder used to state that each written line is
independently parseable: it parses exactly the object shape
`\x7b"task_id": <string>, "completion": <string>\x7d` produced above,
undoing the escaping (including `\uXXXX` forms and surrogate pairs). -/

def readHexDigit (c : Char) : Option Nat :=
  if 48 ≤ c.toNat ∧ c.toNat ≤ 57 then some (c.toNat - 48)
  else if 97 ≤ c.toNat ∧ c.toNat ≤ 102 then some (c.toNat - 87)
  else if 65 ≤ c.toNat ∧ c.toNat ≤ 70 then some (c.toNat - 55)
  else none

def readHex4 (a b c d : Char) : Option Nat :=
  match readHexDigit a, readHexDigit b, readHexDigit c, readHexDigit d with
  | some x1, some x2, some x3, some x4 => some (((x1 * 16 + x2) * 16 + x3) * 16 + x4)
  | _, _, _, _ => none

/-- The short two-character escapes `\e` and the characters they denote. -/
def escTable (e : Char) : Option Char :=
  if e = '"' then some '"'
  else if e = '\\' then some '\\'
  else if e = '/' then some '/'
  else if e = 'n' then some '\n'
  else if e = 'r' then some '\r'
  else if e = 't' then some '\t'
  else if e = 'b' then some (Char.ofNat 8)
  else if e = 'f' then some (Char.ofNat 12)
  else none

/-- Scan the body of a JSON string literal up to its unescaped closing
quote; return the raw (still escaped) body and the remainder after the
quote. -/
def scanJSONString : List Char → Option (List Char × List Char)
  | [] => none
  | c :: rest =>
      if c = '"' then some ([], rest)
      else if c = '\\' then
        match rest with
        | [] => none
        | e :: rest2 =>
            match scanJSONString rest2 with
            | none => none
            | some (s, r) => some ('\\' :: e :: s, r)
      else
        match scanJSONString rest with
        | none => none
        | some (s, r) => some (c :: s, r)

/-- Consume one logical character from an escaped JSON string body: a plain
character, a short escape, a `\uXXXX` escape, or a surrogate pair. -/
def unescapeStep : List Char → Option (Char × List Char)
  | [] => none
  | c :: rest =>
      if c = '\\' then
        match rest with
        | [] => none
        | e :: rest2 =>
            if e = 'u' then
              match rest2 with
              | a :: b :: c2 :: d :: rest3 =>
                  match readHex4 a b c2 d with
                  | none => none
                  | some n =>
                      if 0xd800 ≤ n ∧ n ≤ 0xdbff then
                        match rest3 with
                        | bs2 :: u2 :: a2 :: b2 :: c3 :: d2 :: rest4 =>
                            if bs2 = '\\' ∧ u2 = 'u' then
                              match readHex4 a2 b2 c3 d2 with
                              | none => none
                              | some m =>
                                  if 0xdc00 ≤ m ∧ m ≤ 0xdfff then
                                    some (Char.ofNat
                                      (0x10000 + (n - 0xd800) * 0x400 + (m - 0xdc00)), rest4)
                                  else none
                            else none
                        | _ => none
                      else if 0xdc00 ≤ n ∧ n ≤ 0xdfff then none
                      else some (Char.ofNat n, rest3)
              | _ => none
            else
              match escTable e with
              | none => none
              | some ch => some (ch, rest2)
      else
        some (c, rest)

def unescapeFuel : Nat → List Char → Option (List Char)
  | _, [] => some []
  | 0, _ :: _ => none
  | fuel + 1, c :: rest =>
      match unescapeStep (c :: rest) with
      | none => none
      | some (ch, rest2) =>
          match unescapeFuel fuel rest2 with
          | none => none
          | some s => some (ch :: s)

/-- Undo the escaping of a scanned JSON string body. -/
def unescape (l : List Char) : Option (List Char) :=
  unescapeFuel l.length l

def dropLiteral (pat l : List Char) : Option (List Char) :=
  if pat.isPrefixOf l then some (l.drop pat.length) else none

/-- Parse one output line back into a `Prediction`. -/
def decodeLine (l : List Char) : Option Prediction :=
  match dropLiteral "\x7b\"task_id\": \"".data l with
  | none => none
  | some l1 =>
      match scanJSONString l1 with
      | none => none
      | some (raw1, l2) =>
          match unescape raw1 with
          | none => none
          | some t =>
              match dropLiteral ", \"completion\": \"".data l2 with
              | none => none
              | some l3 =>
                  match scanJSONString l3 with
                  | none => none
                  | some (raw2, l4) =>
                      match unescape raw2 with
                      | none => none
                      | some cpl =>
                          if l4 = "\x7d".data then some ⟨⟨t⟩, ⟨cpl⟩⟩ else none

/-! ### Roundtrip: every written line decodes back to its record -/

theorem char_valid_range (c : Char) :
    c.toNat < 0xd800 ∨ (0xdfff < c.toNat ∧ c.toNat < 0x110000) := c.valid

theorem readHexDigit_hexDigitChar : ∀ n, n < 16 → readHexDigit (hexDigitChar n) = some n := by
  decide

theorem hexDigitChar_props : ∀ n, n < 16 →
    hexDigitChar n ≠ '"' ∧ hexDigitChar n ≠ '\\' ∧ hexDigitChar n ≠ '\n' := by
  decide

theorem readHex4_hex4 (n : Nat) (h : n < 0x10000) :
    readHex4 (hexDigitChar (n / 4096 % 16)) (hexDigitChar (n / 256 % 16))
      (hexDigitChar (n / 16 % 16)) (hexDigitChar (n % 16)) = some n := by
  rw [readHex4, readHexDigit_hexDigitChar _ (Nat.mod_lt _ (by norm_num)),
    readHexDigit_hexDigitChar _ (Nat.mod_lt _ (by norm_num)),
    readHexDigit_hexDigitChar _ (Nat.mod_lt _ (by norm_num)),
    readHexDigit_hexDigitChar _ (Nat.mod_lt _ (by norm_num))]
  simp only [Option.some.injEq]
  omega

/-- Exhaustive description of the chunk `jsonEscapeChar c`: a short
two-character escape, a literal printable character, a single `\uXXXX`
escape of a code point below `0x10000`, or a surrogate pair. -/
theorem jsonEscapeChar_cases (c : Char) :
    (∃ e, jsonEscapeChar c = ['\\', e] ∧ escTable e = some c ∧ e ≠ 'u')
    ∨ (jsonEscapeChar c = [c] ∧ c ≠ '"' ∧ c ≠ '\\' ∧ 0x20 ≤ c.toNat ∧ c.toNat ≤ 0x7e)
    ∨ (c.toNat < 0x10000 ∧ jsonEscapeChar c = '\\' :: 'u' :: hex4 c.toNat
        ∧ ¬(0xd800 ≤ c.toNat ∧ c.toNat ≤ 0xdbff)
        ∧ ¬(0xdc00 ≤ c.toNat ∧ c.toNat ≤ 0xdfff))
    ∨ (0x10000 ≤ c.toNat ∧ c.toNat < 0x110000 ∧ jsonEscapeChar c =
        ('\\' :: 'u' :: hex4 (0xd800 + (c.toNat - 0x10000) / 0x400)) ++
          ('\\' :: 'u' :: hex4 (0xdc00 + (c.toNat - 0x10000) % 0x400))) := by
  unfold jsonEscapeChar
  by_cases h1 : c = '"'
  · rw [if_pos h1]
    subst h1
    exact Or.inl ⟨'"', rfl, by decide, by decide⟩
  rw [if_neg h1]
  by_cases h2 : c = '\\'
  · rw [if_pos h2]
    subst h2
    exact Or.inl ⟨'\\', rfl, by decide, by decide⟩
  rw [if_neg h2]
  by_cases h3 : c = '\n'
  · rw [if_pos h3]
    subst h3
    exact Or.inl ⟨'n', rfl, by decide, by decide⟩
  rw [if_neg h3]
  by_cases h4 : c = '\r'
  · rw [if_pos h4]
    subst h4
    exact Or.inl ⟨'r', rfl, by decide, by decide⟩
  rw [if_neg h4]
  by_cases h5 : c = '\t'
  · rw [if_pos h5]
    subst h5
    exact Or.inl ⟨'t', rfl, by decide, by decide⟩
  rw [if_neg h5]
  by_cases h6 : c.toNat = 8
  · rw [if_pos h6]
    refine Or.inl ⟨'b', rfl, ?_, by decide⟩
    have hc : c = Char.ofNat 8 := by
      rw [← h6, Char.ofNat_toNat]
    rw [hc]
    decide
  rw [if_neg h6]
  by_cases h7 : c.toNat = 12
  · rw [if_pos h7]
    refine Or.inl ⟨'f', rfl, ?_, by decide⟩
    have hc : c = Char.ofNat 12 := by
      rw [← h7, Char.ofNat_toNat]
    rw [hc]
    decide
  rw [if_neg h7]
  by_cases h8 : 0x20 ≤ c.toNat ∧ c.toNat ≤ 0x7e
  · rw [if_pos h8]
    exact Or.inr (Or.inl ⟨rfl, h1, h2, h8.1, h8.2⟩)
  rw [if_neg h8]
  by_cases h9 : c.toNat < 0x10000
  · rw [if_pos h9]
    refine Or.inr (Or.inr (Or.inl ⟨h9, rfl, ?_, ?_⟩)) <;>
      rcases char_valid_range c with hv | hv <;> omega
  · rw [if_neg h9]
    refine Or.inr (Or.inr (Or.inr ⟨by omega, ?_, rfl⟩))
    rcases char_valid_range c with hv | hv
    · omega
    · exact hv.2

theorem scanJSONString_quote (r : List Char) :
    scanJSONString ('"' :: r) = some ([], r) := by
  rw [scanJSONString.eq_def]
  dsimp only
  rw [if_pos rfl]

theorem scanJSONString_esc (e : Char) (rest : List Char) :
    scanJSONString ('\\' :: e :: rest) =
      match scanJSONString rest with
      | none => none
      | some (s, r) => some ('\\' :: e :: s, r) := by
  rw [scanJSONString.eq_def]
  dsimp only
  rw [if_neg (by decide : ¬('\\' : Char) = '"'), if_pos rfl]

theorem scanJSONString_plain (c : Char) (rest : List Char) (h1 : c ≠ '"') (h2 : c ≠ '\\') :
    scanJSONString (c :: rest) =
      match scanJSONString rest with
      | none => none
      | some (s, r) => some (c :: s, r) := by
  rw [scanJSONString.eq_def]
  dsimp only
  rw [if_neg h1, if_neg h2]

/-- Character sequences over which the string scanner passes transparently:
concatenations of two-character escapes and plain characters. -/
inductive ScanChunks : List Char → Prop where
  | nil : ScanChunks []
  | esc (e : Char) (A : List Char) : ScanChunks A → ScanChunks ('\\' :: e :: A)
  | plain (c : Char) (A : List Char) : c ≠ '"' → c ≠ '\\' → ScanChunks A →
      ScanChunks (c :: A)

theorem scanJSONString_chunks (A : List Char) (hA : ScanChunks A) (rest : List Char) :
    scanJSONString (A ++ rest) =
      match scanJSONString rest with
      | none => none
      | some (s, r) => some (A ++ s, r) := by
  induction hA with
  | nil =>
      simp only [List.nil_append]
      cases hsc : scanJSONString rest with
      | none => rfl
      | some p => cases p; rfl
  | esc e A hA ih =>
      rw [List.cons_append, List.cons_append, scanJSONString_esc, ih]
      cases hsc : scanJSONString rest with
      | none => rfl
      | some p => cases p; rfl
  | plain c A h1 h2 hA ih =>
      rw [List.cons_append, scanJSONString_plain c _ h1 h2, ih]
      cases hsc : scanJSONString rest with
      | none => rfl
      | some p => cases p; rfl

theorem scanChunks_hex4 (n : Nat) (A : List Char) (hA : ScanChunks A) :
    ScanChunks (hex4 n ++ A) := by
  simp only [hex4, List.cons_append, List.nil_append]
  refine ScanChunks.plain _ _ ?_ ?_
    (ScanChunks.plain _ _ ?_ ?_ (ScanChunks.plain _ _ ?_ ?_ (ScanChunks.plain _ _ ?_ ?_ hA)))
  all_goals
    first
    | exact (hexDigitChar_props _ (Nat.mod_lt _ (by norm_num))).1
    | exact (hexDigitChar_props _ (Nat.mod_lt _ (by norm_num))).2.1

theorem scanChunks_jsonEscapeChar (c : Char) (A : List Char) (hA : ScanChunks A) :
    ScanChunks (jsonEscapeChar c ++ A) := by
  rcases jsonEscapeChar_cases c with ⟨e, hchunk, -, -⟩ | ⟨hchunk, h1, h2, -, -⟩ |
    ⟨-, hchunk, -, -⟩ | ⟨-, -, hchunk⟩
  · rw [hchunk]
    exact .esc e A hA
  · rw [hchunk]
    exact .plain c A h1 h2 hA
  · rw [hchunk]
    simp only [List.cons_append]
    exact .esc 'u' _ (scanChunks_hex4 _ _ hA)
  · rw [hchunk]
    simp only [List.cons_append, List.append_assoc]
    exact .esc 'u' _ (scanChunks_hex4 _ _ (.esc 'u' _ (scanChunks_hex4 _ _ hA)))

theorem scanChunks_jsonEscape (s : List Char) : ScanChunks (jsonEscape s) := by
  induction s with
  | nil => exact .nil
  | cons c s ih =>
      rw [jsonEscape]
      exact scanChunks_jsonEscapeChar c _ ih

/-- Scanning an escaped body followed by the closing quote recovers the body
and the remainder. -/
theorem scanJSONString_jsonEscape (s r : List Char) :
    scanJSONString (jsonEscape s ++ '"' :: r) = some (jsonEscape s, r) := by
  rw [scanJSONString_chunks _ (scanChunks_jsonEscape s), scanJSONString_quote]
  simp

theorem unescapeFuel_nil (fuel : Nat) : unescapeFuel fuel [] = some [] := by
  cases fuel <;> rfl

/-- One chunk of the escaping is one step of the decoder. -/
theorem unescapeStep_chunk (c : Char) (tail : List Char) :
    unescapeStep (jsonEscapeChar c ++ tail) = some (c, tail) := by
  rcases jsonEscapeChar_cases c with ⟨e, hchunk, htab, hu⟩ | ⟨hchunk, h1, h2, -, -⟩ |
    ⟨hlt, hchunk, hs1, hs2⟩ | ⟨hge, hlt2, hchunk⟩
  · rw [hchunk]
    simp only [List.cons_append, List.nil_append]
    rw [unescapeStep.eq_def]
    dsimp only
    rw [if_pos rfl]
    rw [if_neg hu, htab]
  · rw [hchunk]
    simp only [List.cons_append, List.nil_append]
    rw [unescapeStep.eq_def]
    dsimp only
    rw [if_neg h2]
  · rw [hchunk]
    simp only [hex4, List.cons_append, List.nil_append]
    rw [unescapeStep.eq_def]
    dsimp only
    rw [if_pos rfl]
    rw [if_pos rfl]
    rw [readHex4_hex4 c.toNat hlt]
    dsimp only
    rw [if_neg hs1, if_neg hs2]
    try dsimp only
    rw [Char.ofNat_toNat]
  · have hhi1 : 0xd800 + (c.toNat - 0x10000) / 0x400 < 0x10000 := by omega
    have hlo1 : 0xdc00 + (c.toNat - 0x10000) % 0x400 < 0x10000 := by
      have := Nat.mod_lt (c.toNat - 0x10000) (show 0 < 0x400 by norm_num)
      omega
    have hhis : 0xd800 ≤ 0xd800 + (c.toNat - 0x10000) / 0x400 ∧
        0xd800 + (c.toNat - 0x10000) / 0x400 ≤ 0xdbff := by
      constructor
      · omega
      · have : (c.toNat - 0x10000) / 0x400 ≤ 0x3ff := by omega
        omega
    have hlos : 0xdc00 ≤ 0xdc00 + (c.toNat - 0x10000) % 0x400 ∧
        0xdc00 + (c.toNat - 0x10000) % 0x400 ≤ 0xdfff := by
      constructor
      · omega
      · have := Nat.mod_lt (c.toNat - 0x10000) (show 0 < 0x400 by norm_num)
        omega
    rw [hchunk]
    simp only [hex4, List.cons_append, List.nil_append, List.append_assoc]
    rw [unescapeStep]
    rw [if_pos rfl]
    rw [if_pos rfl]
    rw [readHex4_hex4 _ hhi1]
    dsimp only
    rw [if_pos hhis]
    try dsimp only
    rw [if_pos ⟨rfl, rfl⟩]
    rw [readHex4_hex4 _ hlo1]
    dsimp only
    rw [if_pos hlos]
    try dsimp only
    have harg : 0x10000 + (0xd800 + (c.toNat - 0x10000) / 0x400 - 0xd800) * 0x400 +
        (0xdc00 + (c.toNat - 0x10000) % 0x400 - 0xdc00) = c.toNat := by omega
    rw [harg, Char.ofNat_toNat]

theorem jsonEscapeChar_ne_nil (c : Char) : jsonEscapeChar c ≠ [] := by
  rcases jsonEscapeChar_cases c with ⟨e, hchunk, -, -⟩ | ⟨hchunk, -, -, -, -⟩ |
    ⟨-, hchunk, -, -⟩ | ⟨-, -, hchunk⟩ <;> rw [hchunk] <;> simp [hex4]

/-- One chunk of the escaping is undone by one step of `unescapeFuel`. -/
theorem unescapeFuel_chunk (c : Char) (f : Nat) (tail s : List Char)
    (htail : unescapeFuel f tail = some s) :
    unescapeFuel (f + 1) (jsonEscapeChar c ++ tail) = some (c :: s) := by
  obtain ⟨hd, tl, hsh⟩ : ∃ hd tl, jsonEscapeChar c ++ tail = hd :: tl := by
    cases hch : jsonEscapeChar c with
    | nil => exact absurd hch (jsonEscapeChar_ne_nil c)
    | cons a l => exact ⟨a, l ++ tail, by rw [List.cons_append]⟩
  rw [hsh, unescapeFuel.eq_def]
  dsimp only
  rw [← hsh, unescapeStep_chunk c tail]
  dsimp only
  rw [htail]

theorem unescapeFuel_jsonEscape (s : List Char) (k : Nat) :
    unescapeFuel (s.length + k) (jsonEscape s) = some s := by
  induction s generalizing k with
  | nil =>
      rw [jsonEscape]
      exact unescapeFuel_nil _
  | cons c s ih =>
      have hlen : (c :: s).length + k = (s.length + k) + 1 := by
        simp [List.length_cons]
        omega
      rw [jsonEscape, hlen]
      exact unescapeFuel_chunk c _ _ _ (ih k)

theorem jsonEscape_length_ge (s : List Char) : s.length ≤ (jsonEscape s).length := by
  induction s with
  | nil => simp [jsonEscape]
  | cons c s ih =>
      rw [jsonEscape]
      have hc : 1 ≤ (jsonEscapeChar c).length := by
        rcases jsonEscapeChar_cases c with ⟨e, hchunk, -, -⟩ | ⟨hchunk, -, -, -, -⟩ |
          ⟨-, hchunk, -, -⟩ | ⟨-, -, hchunk⟩ <;> rw [hchunk] <;> simp [hex4]
      simp only [List.length_append, List.length_cons]
      omega

/-- The escaping performed by `json_dumps` is inverted by `unescape`. -/
theorem unescape_jsonEscape (s : List Char) : unescape (jsonEscape s) = some s := by
  have hle := jsonEscape_length_ge s
  have heq : (jsonEscape s).length = s.length + ((jsonEscape s).length - s.length) := by
    omega
  rw [unescape, heq, unescapeFuel_jsonEscape]

theorem dropLiteral_append_eq (pat rest : List Char) :
    dropLiteral pat (pat ++ rest) = some rest := by
  unfold dropLiteral
  rw [if_pos ((isPrefixOf_iff _ _).mpr (isPrefix_append_left pat rest)),
    List.drop_left]

/-- Each output line decodes back to the prediction it was written from:
the lines of the output file are independently parseable. -/
theorem decodeLine_json_dumps (p : Prediction) : decodeLine (json_dumps p) = some p := by
  have hsplit2 : "\", \"completion\": \"".data =
      '"' :: ", \"completion\": \"".data := by rfl
  have hsplit3 : "\"\x7d".data = '"' :: "\x7d".data := by rfl
  have h1 : json_dumps p =
      "\x7b\"task_id\": \"".data ++
        (jsonEscape p.task_id.data ++ ('"' :: (", \"completion\": \"".data ++
          (jsonEscape p.completion.data ++ ('"' :: "\x7d".data))))) := by
    rw [json_dumps, hsplit2, hsplit3]
    simp [List.append_assoc]
  rw [decodeLine, h1, dropLiteral_append_eq]
  dsimp only
  rw [scanJSONString_jsonEscape]
  dsimp only
  rw [unescape_jsonEscape]
  dsimp only
  rw [dropLiteral_append_eq]
  dsimp only
  rw [scanJSONString_jsonEscape]
  dsimp only
  rw [unescape_jsonEscape]
  dsimp only
  rw [if_pos rfl]

theorem newline_not_mem_jsonEscapeChar (c : Char) : '\n' ∉ jsonEscapeChar c := by
  rcases jsonEscapeChar_cases c with ⟨e, hchunk, htab, -⟩ | ⟨hchunk, -, -, hlo, -⟩ |
    ⟨-, hchunk, -, -⟩ | ⟨-, -, hchunk⟩ <;> rw [hchunk] <;> intro hmem
  · rcases List.mem_cons.mp hmem with h | h
    · exact absurd h (by decide)
    · rcases List.mem_cons.mp h with h2 | h2
      · rw [← h2, (by decide : escTable '\n' = none)] at htab
        exact Option.noConfusion htab
      · exact absurd h2 (List.not_mem_nil _)
  · rcases List.mem_cons.mp hmem with h | h
    · rw [← h] at hlo
      exact absurd hlo (by decide)
    · exact absurd h (List.not_mem_nil _)
  · simp only [hex4, List.mem_cons, List.not_mem_nil, or_false] at hmem
    rcases hmem with h | h | h | h | h | h
    · exact absurd h (by decide)
    · exact absurd h (by decide)
    all_goals
      exact absurd h.symm (hexDigitChar_props _ (Nat.mod_lt _ (by norm_num))).2.2
  · simp only [hex4, List.cons_append, List.nil_append, List.mem_cons,
      List.not_mem_nil, or_false] at hmem
    rcases hmem with h | h | h | h | h | h | h | h | h | h | h | h
    · exact absurd h (by decide)
    · exact absurd h (by decide)
    · exact absurd h.symm (hexDigitChar_props _ (Nat.mod_lt _ (by norm_num))).2.2
    · exact absurd h.symm (hexDigitChar_props _ (Nat.mod_lt _ (by norm_num))).2.2
    · exact absurd h.symm (hexDigitChar_props _ (Nat.mod_lt _ (by norm_num))).2.2
    · exact absurd h.symm (hexDigitChar_props _ (Nat.mod_lt _ (by norm_num))).2.2
    · exact absurd h (by decide)
    · exact absurd h (by decide)
    all_goals
      exact absurd h.symm (hexDigitChar_props _ (Nat.mod_lt _ (by norm_num))).2.2

theorem newline_not_mem_jsonEscape (s : List Char) : '\n' ∉ jsonEscape s := by
  induction s with
  | nil => exact List.not_mem_nil _
  | cons c s ih =>
      rw [jsonEscape]
      intro hmem
      rcases List.mem_append.mp hmem with h | h
      · exact newline_not_mem_jsonEscapeChar c h
      · exact ih h

theorem newline_not_mem_json_dumps (p : Prediction) : '\n' ∉ json_dumps p := by
  unfold json_dumps
  intro hmem
  simp only [List.mem_append] at hmem
  rcases hmem with ((((h | h) | h) | h) | h)
  · exact absurd h (by decide)
  · exact newline_not_mem_jsonEscape _ h
  · exact absurd h (by decide)
  · exact newline_not_mem_jsonEscape _ h
  · exact absurd h (by decide)

theorem splitOnChar_append_not_mem (c : Char) (A rest : List Char) (hA : c ∉ A) :
    splitOnChar c (A ++ rest) =
      (A ++ (splitOnChar c rest).headD []) :: (splitOnChar c rest).tail := by
  induction A with
  | nil =>
      simp only [List.nil_append]
      cases hS : splitOnChar c rest with
      | nil => exact absurd hS (splitOnChar_ne_nil c rest)
      | cons h t => simp
  | cons a A ih =>
      have ha : ¬a = c := fun hEq => hA (hEq ▸ List.mem_cons_self a A)
      rw [List.cons_append, splitOnChar, if_neg ha,
        ih fun hmem => hA (List.mem_cons_of_mem a hmem)]
      simp

theorem splitOnChar_cons_self (c : Char) (rest : List Char) :
    splitOnChar c (c :: rest) = [] :: splitOnChar c rest := by
  rw [splitOnChar, if_pos rfl]

theorem write_output_func_flatten (result_list : List Prediction) (old : List Char) :
    write_output_func result_list old =
      (result_list.map (fun r => json_dumps r ++ ['\n'])).flatten := by
  unfold write_output_func openModeW
  induction result_list with
  | nil => rfl
  | cons r rest ih =>
      rw [List.map_cons, List.flatten_cons]
      rw [List.foldl_cons, List.nil_append]
      have haux : ∀ (l : List Prediction) (init : List Char),
          l.foldl (fun acc r => acc ++ json_dumps r ++ ['\n']) init =
            init ++ (l.map (fun r => json_dumps r ++ ['\n'])).flatten := by
        intro l
        induction l with
        | nil => intro init; simp
        | cons q qs ihq =>
            intro init
            rw [List.foldl_cons, ihq, List.map_cons, List.flatten_cons]
            simp [List.append_assoc]
      rw [haux]

theorem splitOnChar_write_output (result_list : List Prediction) (old : List Char) :
    splitOnChar '\n' (write_output_func result_list old) =
      result_list.map json_dumps ++ [[]] := by
  rw [write_output_func_flatten]
  induction result_list with
  | nil => rfl
  | cons r rest ih =>
      rw [List.map_cons, List.flatten_cons, List.append_assoc,
        splitOnChar_append_not_mem '\n' (json_dumps r) _ (newline_not_mem_json_dumps r)]
      simp only [List.cons_append, List.nil_append, splitOnChar_cons_self, ih,
        List.headD_cons, List.tail_cons, List.append_nil, List.map_cons]

/-- C6: `write_output_func` writes exactly one self-contained JSON line per
record, in list order, to the output path, overwriting any existing content:
the resulting file content is independent of the previous content, equals
the concatenation of `json.dumps(record) + "\n"` in list order, splits on
newlines into exactly the encoded records in order (so the number of lines
equals the length of the list, zero lines for the empty list), and each line
independently parses back to its record. -/
theorem C6_write_output_one_line_per_record :
    (∀ (result_list : List Prediction) (old : List Char),
        write_output_func result_list old =
          (result_list.map (fun r => json_dumps r ++ ['\n'])).flatten)
    ∧ (∀ (result_list : List Prediction) (old old' : List Char),
        write_output_func result_list old = write_output_func result_list old')
    ∧ (∀ (result_list : List Prediction) (old : List Char),
        splitOnChar '\n' (write_output_func result_list old) =
          result_list.map json_dumps ++ [[]])
    ∧ (∀ (result_list : List Prediction) (old : List Char),
        (write_output_func result_list old).count '\n' = result_list.length)
    ∧ (∀ p : Prediction, decodeLine (json_dumps p) = some p)
    ∧ (∀ old : List Char, write_output_func [] old = []) := by
  refine ⟨write_output_func_flatten, ?_, splitOnChar_write_output, ?_,
    decodeLine_json_dumps, ?_⟩
  · intro l old old'
    rw [write_output_func_flatten, write_output_func_flatten]
  · intro l old
    have hsplit := splitOnChar_length '\n' (write_output_func l old)
    rw [splitOnChar_write_output] at hsplit
    simp only [List.length_append, List.length_map, List.length_cons,
      List.length_nil] at hsplit
    omega
  · intro old
    rfl

/-- C7: the Result Writer is idempotent: writing the same ordered list to
the same path twice in succession leaves the file byte-identical to writing
it once, because opening with mode `"w"` truncates rather than appends. -/
theorem C7_write_output_idempotent :
    ∀ (result_list : List Prediction) (old : List Char),
      write_output_func result_list (write_output_func result_list old) =
        write_output_func result_list old := by
  intro l old
  rw [write_output_func_flatten, write_output_func_flatten]

/-! ## The transport adapter (`send_request`) -/

/-- Modelled from the spec: `send_request` is declared in
`cerebrum/utils/communication.py`, which is not among the provided sources
(only its callers in `src/cerebrum/llm/apis.py` are).  Following spec
sections 4.2 and 7, the single HTTP round trip ends in one of three
outcomes: a reply whose body deserializes into a Response, a non-2xx
status, or a transport-level failure (network failure, timeout, malformed
reply). -/
inductive TransportOutcome where
  | reply (body : LLMResponse)
  | httpError (status : Int) (reason : String)
  | transportFailure (cause : String)
  deriving Repr

/-- Modelled from the spec: the Transport Adapter maps a non-2xx status to a
Response with `finished = false`, `error` populated with a human-readable
cause and `status_code` set to the observed code, and maps a
transport-level failure to the same shape with the sentinel status 599; it
never raises — it is a total function into Response. -/
def send_request (outcome : TransportOutcome) : LLMResponse :=
  match outcome with
  | .reply body => body
  | .httpError status reason =>
      { response_class := "llm", response_message := none, tool_calls := none,
        finished := false, error := some ("Request failed with status " ++ reason),
        status_code := status }
  | .transportFailure cause =>
      { response_class := "llm", response_message := none, tool_calls := none,
        finished := false, error := some ("Request failed: " ++ cause),
        status_code := 599 }

theorem string_append_ne_empty (pre cause : String) (hpre : 0 < pre.length) :
    pre ++ cause ≠ "" := by
  intro h
  have hlen := congrArg String.length h
  rw [String.length_append] at hlen
  simp only [String.length_empty] at hlen
  omega

/-- C8: on every non-2xx status and every transport-level failure the
adapter returns a well-formed Response — it never propagates an exception —
with `finished = false`, a populated non-empty human-readable `error`, and
`status_code` the observed code (for HTTP errors) or the sentinel 599 (for
transport failures). -/
theorem C8_send_request_failure_policy :
    (∀ (status : Int) (reason : String),
        (send_request (.httpError status reason)).finished = false
        ∧ (send_request (.httpError status reason)).error ≠ none
        ∧ (send_request (.httpError status reason)).error ≠ some ""
        ∧ (send_request (.httpError status reason)).status_code = status)
    ∧ (∀ cause : String,
        (send_request (.transportFailure cause)).finished = false
        ∧ (send_request (.transportFailure cause)).error ≠ none
        ∧ (send_request (.transportFailure cause)).error ≠ some ""
        ∧ (send_request (.transportFailure cause)).status_code = 599) := by
  constructor
  · intro status reason
    refine ⟨rfl, by simp [send_request], ?_, rfl⟩
    intro h
    have hmsg := Option.some.inj h
    exact string_append_ne_empty "Request failed with status " reason (by decide) hmsg
  · intro cause
    refine ⟨rfl, by simp [send_request], ?_, rfl⟩
    intro h
    have hmsg := Option.some.inj h
    exact string_append_ne_empty "Request failed: " cause (by decide) hmsg

/-- Witness for C8 at a concrete transport failure. -/
theorem C8_send_request_failure_policy_witness :
    (send_request (.transportFailure "connection refused")).finished = false
    ∧ (send_request (.transportFailure "connection refused")).error ≠ none :=
  ⟨(C8_send_request_failure_policy.2 "connection refused").1,
   (C8_send_request_failure_policy.2 "connection refused").2.1⟩

end Cerebrum
